import Mathlib

/-!
# Verification of the crossterm-display diff renderer

Shallow embedding of `src/lib.rs` of the `crossterm-display` crate:
the `Cell` model, the `TerminalDisplay` double buffer, and the
diff/repaint algorithm `render`, together with proofs of the spec claims.

The output sink (`self.stdout` in the Rust code) is modelled as a trace of
queued commands plus an operation counter; a sink operation succeeds iff
fewer than `fuel` operations have been attempted so far, so an arbitrary
operation index can be made the failing one by choosing `fuel`.
Machine integers: `ch` is a `u8`, `w`/`h` are `u16`, `x`/`y` in `write`
are `usize`; all are modelled as `Nat`, with the Rust cast `x as u16`
in `render` rendered as `x % 65536`.
Rust panics (out-of-bounds indexing) and `std::io::Error` both become
the error side of `Except`.
-/

/-- Colors of `crossterm::style::Color` (an external enum; only structural
equality matters to the renderer). -/
inductive Color where
  | reset | black | darkGrey | red | darkRed | green | darkGreen
  | yellow | darkYellow | blue | darkBlue | magenta | darkMagenta
  | cyan | darkCyan | white | grey
  | rgb (r g b : Nat)
  | ansiValue (v : Nat)
deriving DecidableEq, Repr

/-- Text attributes of `crossterm::style::Attribute` (external enum; only
structural equality matters to the renderer). -/
inductive TextAttr where
  | reset | bold | dim | italic | underlined | slowBlink | rapidBlink
  | reverse | hidden | crossedOut | noBold | normalIntensity | noItalic
  | noUnderline | noBlink | noReverse | noHidden | notCrossedOut
deriving DecidableEq, Repr

/-- `Cell`: a single character on the screen (src/lib.rs, lines 9-20). -/
structure Cell where
  ch : Nat
  fg : Color
  bg : Color
  attr : TextAttr
deriving DecidableEq, Repr

/-- `Cell::empty_colored` (src/lib.rs, lines 35-42): an empty cell of a
certain background color. -/
def Cell.empty_colored (color : Color) : Cell :=
  { ch := 32, fg := Color.white, bg := color, attr := TextAttr.reset }

/-- `Cell::empty` (src/lib.rs, lines 30-32): empty cell, black background. -/
def Cell.empty : Cell :=
  Cell.empty_colored Color.black

/-- `impl Default for Cell` (src/lib.rs, lines 22-26). -/
def Cell.default : Cell :=
  Cell.empty

/-- One command queued to (or applied to) the output sink. -/
inductive Cmd where
  | setAttr (a : TextAttr)
  | setFg (c : Color)
  | setBg (c : Color)
  | writeByte (b : Nat)
  | moveTo (x y : Nat)
  | clearAll
  | flush
deriving DecidableEq, Repr

/-- Errors a render can surface: a sink I/O error (`std::io::Error`) or a
Rust panic from out-of-bounds indexing. -/
inductive RErr where
  | ioError
  | panic
deriving DecidableEq, Repr

/-- The state of the output sink: the commands queued so far (in order) and
the number of sink operations attempted. -/
structure SinkState where
  out : List Cmd
  ops : Nat
deriving DecidableEq, Repr

/-- One sink operation: succeeds (appending the command) iff fewer than
`fuel` operations have happened, otherwise fails with an I/O error. -/
def emit (fuel : Nat) (s : SinkState) (c : Cmd) : Except RErr SinkState :=
  if s.ops < fuel then .ok { out := s.out ++ [c], ops := s.ops + 1 }
  else .error RErr.ioError

/-- `Cell::render` (src/lib.rs, lines 44-50): queue set-attribute,
set-foreground, set-background, then the raw character byte. -/
def Cell.render (fuel : Nat) (c : Cell) (s : SinkState) : Except RErr SinkState := do
  let s ← emit fuel s (Cmd.setAttr c.attr)
  let s ← emit fuel s (Cmd.setFg c.fg)
  let s ← emit fuel s (Cmd.setBg c.bg)
  let s ← emit fuel s (Cmd.writeByte c.ch)
  pure s

/-- `TerminalDisplay` (src/lib.rs, lines 58-74); the `stdout` handle is
modelled separately as the `SinkState` threaded through `render`. -/
structure TerminalDisplay where
  prev_chars : Option (List (List Cell))
  chars : List (List Cell)
  w : Nat
  h : Nat
deriving DecidableEq, Repr

/-- `TerminalDisplay::init_chars` (src/lib.rs, lines 89-99): `h` rows of
`w` empty cells. -/
def TerminalDisplay.init_chars (w h : Nat) : List (List Cell) :=
  List.replicate h (List.replicate w Cell.empty)

/-- `TerminalDisplay::new` (src/lib.rs, lines 78-87), parameterised by the
result `(w, h)` of the external `terminal::size()` query. -/
def TerminalDisplay.new (w h : Nat) : TerminalDisplay :=
  { prev_chars := none, chars := TerminalDisplay.init_chars w h, w := w, h := h }

/-- `TerminalDisplay::resize` (src/lib.rs, lines 103-109). -/
def TerminalDisplay.resize (d : TerminalDisplay) (w h : Nat) : TerminalDisplay :=
  { prev_chars := none, chars := TerminalDisplay.init_chars w h, w := w, h := h }

/-- `TerminalDisplay::write` (src/lib.rs, lines 112-114):
`self.chars[y][x] = ch`; the Rust indexing panics when out of bounds, which
is modelled as the `Except` error (state unmodified). -/
def TerminalDisplay.write (d : TerminalDisplay) (x y : Nat) (c : Cell) :
    Except Unit TerminalDisplay :=
  match d.chars[y]? with
  | none => .error ()
  | some row =>
    if x < row.length then
      .ok { d with chars := d.chars.set y (row.set x c) }
    else .error ()

/-- `TerminalDisplay::clear` (src/lib.rs, lines 143-147): fill every row of
`chars` with `Cell::empty()`. -/
def TerminalDisplay.clear (d : TerminalDisplay) : TerminalDisplay :=
  { d with chars := d.chars.map fun row => row.map fun _ => Cell.empty }

/-- `TerminalDisplay::clear_colored` (src/lib.rs, lines 150-154). -/
def TerminalDisplay.clear_colored (d : TerminalDisplay) (color : Color) :
    TerminalDisplay :=
  { d with chars := d.chars.map fun row => row.map fun _ => Cell.empty_colored color }

/-- Inner loop of the delta branch of `render` (src/lib.rs, lines 121-126):
for each cell of the row at absolute index `x`, compare with
`prev_chars[y][x]` (a panicking index, modelled via `Option` lookup) and,
when different, queue `MoveTo(x as u16, y as u16)` then render the cell. -/
def renderRowDelta (fuel : Nat) (prev : List (List Cell)) (y : Nat) :
    List Cell → Nat → SinkState → Except RErr SinkState
  | [], _, s => .ok s
  | cell :: rest, x, s =>
    match prev[y]?.bind fun prow => prow[x]? with
    | none => .error RErr.panic
    | some pcell =>
      if pcell ≠ cell then do
        let s ← emit fuel s (Cmd.moveTo (x % 65536) (y % 65536))
        let s ← Cell.render fuel cell s
        renderRowDelta fuel prev y rest (x + 1) s
      else renderRowDelta fuel prev y rest (x + 1) s

/-- Inner loop of the full-repaint branch of `render` (src/lib.rs,
lines 129-131): stream every cell of the row. -/
def renderRowFull (fuel : Nat) :
    List Cell → SinkState → Except RErr SinkState
  | [], s => .ok s
  | cell :: rest, s => do
    let s ← Cell.render fuel cell s
    renderRowFull fuel rest s

/-- Outer loop of `render` (src/lib.rs, lines 119-133): per row, either the
delta branch (previous present) or `MoveTo(0, y as u16)` followed by the
full row. -/
def renderRows (fuel : Nat) :
    Option (List (List Cell)) → List (List Cell) → Nat → SinkState →
      Except RErr SinkState
  | _, [], _, s => .ok s
  | some prev, row :: rest, y, s => do
    let s ← renderRowDelta fuel prev y row 0 s
    renderRows fuel (some prev) rest (y + 1) s
  | none, row :: rest, y, s => do
    let s ← emit fuel s (Cmd.moveTo 0 (y % 65536))
    let s ← renderRowFull fuel row s
    renderRows fuel none rest (y + 1) s

/-- `TerminalDisplay::render` (src/lib.rs, lines 117-140): run the loop
over `self.chars`, flush, and on success rotate the buffers
(`prev_chars := Some(chars.clone()); chars := init_chars(w, h)`).
On any error the buffers are returned unchanged, as in the Rust `?`
early-returns, which fire before the rotation assignments. -/
def TerminalDisplay.render (d : TerminalDisplay) (fuel : Nat) :
    Except RErr SinkState × TerminalDisplay :=
  match (do
      let s ← renderRows fuel d.prev_chars d.chars 0 { out := [], ops := 0 }
      emit fuel s Cmd.flush : Except RErr SinkState) with
  | .error e => (.error e, d)
  | .ok s =>
    (.ok s,
      { d with
        prev_chars := some d.chars
        chars := TerminalDisplay.init_chars d.w d.h })

/-- `TerminalDisplay::queue_clear` (src/lib.rs, lines 156-161). -/
def TerminalDisplay.queue_clear (fuel : Nat) (s : SinkState) :
    Except RErr SinkState := do
  let s ← emit fuel s Cmd.clearAll
  let s ← emit fuel s (Cmd.moveTo 0 0)
  pure s

/-! ## Derived command-list descriptions of the two repaint modes -/

/-- The four commands `Cell::render` queues for one cell, in order. -/
def Cell.cmds (c : Cell) : List Cmd :=
  [Cmd.setAttr c.attr, Cmd.setFg c.fg, Cmd.setBg c.bg, Cmd.writeByte c.ch]

/-- Commands of a full repaint of `rows`, the first row having index `y`:
per row one cursor move to column 0, then every cell in column order. -/
def fullCmds : List (List Cell) → Nat → List Cmd
  | [], _ => []
  | row :: rest, y =>
    (Cmd.moveTo 0 (y % 65536) :: row.flatMap Cell.cmds) ++ fullCmds rest (y + 1)

/-- Commands of a delta repaint of one row against its previous row: at
each absolute column `x`, a cursor move to `(x, y)` followed by the cell's
commands iff the two cells differ, nothing iff they are equal. -/
def deltaRowCmds : List Cell → List Cell → Nat → Nat → List Cmd
  | pc :: prest, c :: rest, y, x =>
    (if pc ≠ c then Cmd.moveTo (x % 65536) (y % 65536) :: Cell.cmds c else []) ++
      deltaRowCmds prest rest y (x + 1)
  | _, _, _, _ => []

/-- Commands of a delta repaint of `rows` against `prevRows`, row by row. -/
def deltaCmds : List (List Cell) → List (List Cell) → Nat → List Cmd
  | prow :: prest, row :: rest, y =>
    deltaRowCmds prow row y 0 ++ deltaCmds prest rest (y + 1)
  | _, _, _ => []

/-- Number of positions where one row differs from its previous row. -/
def diffRowCount : List Cell → List Cell → Nat
  | pc :: prest, c :: rest => (if pc ≠ c then 1 else 0) + diffRowCount prest rest
  | _, _ => 0

/-- Number of coordinates where the current buffer differs from the
previous buffer. -/
def diffCount : List (List Cell) → List (List Cell) → Nat
  | prow :: prest, row :: rest => diffRowCount prow row + diffCount prest rest
  | _, _ => 0

/-- Is this command a cursor move? -/
def Cmd.isMoveTo : Cmd → Bool
  | Cmd.moveTo _ _ => true
  | _ => false

/-- Is this command a raw character byte (one cell emission)? -/
def Cmd.isWriteByte : Cmd → Bool
  | Cmd.writeByte _ => true
  | _ => false

/-- Is this command a flush? -/
def Cmd.isFlush : Cmd → Bool
  | Cmd.flush => true
  | _ => false

/-! ## The buffer invariant -/

/-- A buffer is well-formed for dimensions `w × h`: exactly `h` rows,
every row of exactly `w` cells. -/
def buffOk (w h : Nat) (b : List (List Cell)) : Prop :=
  b.length = h ∧ ∀ row ∈ b, row.length = w

instance (w h : Nat) (b : List (List Cell)) : Decidable (buffOk w h b) := by
  unfold buffOk; infer_instance

/-- The display invariant: `chars` is a well-formed `w × h` buffer, so is
`prev_chars` whenever present, and `w`, `h` fit in a `u16`. -/
def TerminalDisplay.Inv (d : TerminalDisplay) : Prop :=
  buffOk d.w d.h d.chars ∧
    (∀ p, d.prev_chars = some p → buffOk d.w d.h p) ∧
    d.w < 65536 ∧ d.h < 65536

instance (d : TerminalDisplay) : Decidable d.Inv :=
  match hp : d.prev_chars with
  | none =>
    decidable_of_iff (buffOk d.w d.h d.chars ∧ d.w < 65536 ∧ d.h < 65536)
      (by
        unfold TerminalDisplay.Inv
        rw [hp]
        constructor
        · rintro ⟨h1, h2, h3⟩
          exact ⟨h1, by rintro q ⟨⟩, h2, h3⟩
        · rintro ⟨h1, _, h2, h3⟩
          exact ⟨h1, h2, h3⟩)
  | some q =>
    decidable_of_iff
      (buffOk d.w d.h d.chars ∧ buffOk d.w d.h q ∧ d.w < 65536 ∧ d.h < 65536)
      (by
        unfold TerminalDisplay.Inv
        rw [hp]
        constructor
        · rintro ⟨h1, h2, h3, h4⟩
          exact ⟨h1, by rintro r ⟨⟩; exact h2, h3, h4⟩
        · rintro ⟨h1, h2, h3, h4⟩
          exact ⟨h1, h2 q rfl, h3, h4⟩)

/-- The cell stored at column `x`, row `y` of the current buffer. -/
def TerminalDisplay.cellAt (d : TerminalDisplay) (x y : Nat) : Option Cell :=
  d.chars[y]?.bind fun row => row[x]?

/-! ## Concrete displays and sink runs used to instantiate the theorems -/

/-- A bold `#` cell, as in the spec's concrete scenarios. -/
def hashBold : Cell :=
  { ch := 35, fg := Color.white, bg := Color.black, attr := TextAttr.bold }

/-- A 2×1 display whose previous frame has a bold `#` at (1, 0) and whose
current frame is all-empty: exactly one cell differs. -/
def c1d : TerminalDisplay :=
  { prev_chars := some [[Cell.empty, hashBold]],
    chars := [[Cell.empty, Cell.empty]], w := 2, h := 1 }

/-- The sink state after a successful render of `c1d`. -/
def c1s : SinkState :=
  match (c1d.render 100).1 with
  | .ok s => s
  | .error _ => { out := [], ops := 0 }

/-- A freshly constructed 2×2 display. -/
def c2d : TerminalDisplay := TerminalDisplay.new 2 2

/-- The sink state after a successful first render of `c2d`. -/
def c2s : SinkState :=
  match (c2d.render 100).1 with
  | .ok s => s
  | .error _ => { out := [], ops := 0 }

/-- A 1×2 display with a previous frame and a bold `#` written at (0, 0). -/
def c3d : TerminalDisplay :=
  { prev_chars := some [[Cell.empty], [Cell.empty]],
    chars := [[hashBold], [Cell.empty]], w := 1, h := 2 }

/-- The sink state after a successful render of `c3d`. -/
def c3s : SinkState :=
  match (c3d.render 100).1 with
  | .ok s => s
  | .error _ => { out := [], ops := 0 }

/-- A freshly constructed 1×1 display; rendering it with fuel 0 makes the
very first sink operation fail. -/
def c4d : TerminalDisplay := TerminalDisplay.new 1 1

/-- A 1×1 display with a previous frame, about to be resized. -/
def c5d : TerminalDisplay :=
  { prev_chars := some [[Cell.empty]], chars := [[hashBold]], w := 1, h := 1 }

/-- The sink state after a successful render following `c5d.resize 3 2`. -/
def c5s : SinkState :=
  match ((c5d.resize 3 2).render 100).1 with
  | .ok s => s
  | .error _ => { out := [], ops := 0 }

/-- The display obtained by writing a bold `#` at (1, 1) of a fresh 2×2
display. -/
def c6wd : TerminalDisplay :=
  match (TerminalDisplay.new 2 2).write 1 1 hashBold with
  | .ok d => d
  | .error _ => TerminalDisplay.new 2 2

/-- A fresh 2×1 display, cleared red before rendering. -/
def c8d : TerminalDisplay := TerminalDisplay.new 2 1

/-- The sink state after a successful render of `c8d.clear_colored red`. -/
def c8s : SinkState :=
  match ((c8d.clear_colored Color.red).render 100).1 with
  | .ok s => s
  | .error _ => { out := [], ops := 0 }

/-! ## Basic lemmas about the sink primitives -/

theorem ex_bind_ok {α β : Type} (a : α) (f : α → Except RErr β) :
    (Except.ok a >>= f) = f a := rfl

theorem ex_bind_err {α β : Type} (e : RErr) (f : α → Except RErr β) :
    ((Except.error e : Except RErr α) >>= f) = Except.error e := rfl

theorem emit_ok {fuel : Nat} {s : SinkState} {c : Cmd} {s' : SinkState}
    (h : emit fuel s c = .ok s') : s' = ⟨s.out ++ [c], s.ops + 1⟩ := by
  unfold emit at h
  split at h
  · cases h; rfl
  · cases h

theorem emit_err {fuel : Nat} {s : SinkState} {c : Cmd} {e : RErr}
    (h : emit fuel s c = .error e) : e = RErr.ioError := by
  unfold emit at h
  split at h
  · cases h
  · cases h; rfl

theorem cellRender_ok {fuel : Nat} {c : Cell} {s s' : SinkState}
    (h : Cell.render fuel c s = .ok s') : s'.out = s.out ++ Cell.cmds c := by
  unfold Cell.render at h
  cases h1 : emit fuel s (Cmd.setAttr c.attr) with
  | error e => rw [h1, ex_bind_err] at h; cases h
  | ok s1 =>
    rw [h1, ex_bind_ok] at h
    cases h2 : emit fuel s1 (Cmd.setFg c.fg) with
    | error e => rw [h2, ex_bind_err] at h; cases h
    | ok s2 =>
      rw [h2, ex_bind_ok] at h
      cases h3 : emit fuel s2 (Cmd.setBg c.bg) with
      | error e => rw [h3, ex_bind_err] at h; cases h
      | ok s3 =>
        rw [h3, ex_bind_ok] at h
        cases h4 : emit fuel s3 (Cmd.writeByte c.ch) with
        | error e => rw [h4, ex_bind_err] at h; cases h
        | ok s4 =>
          rw [h4, ex_bind_ok] at h
          cases (emit_ok h1 : s1 = _)
          cases (emit_ok h2 : s2 = _)
          cases (emit_ok h3 : s3 = _)
          cases (emit_ok h4 : s4 = _)
          cases h
          simp [Cell.cmds, List.append_assoc]

theorem cellRender_err {fuel : Nat} {c : Cell} {s : SinkState} {e : RErr}
    (h : Cell.render fuel c s = .error e) : e = RErr.ioError := by
  unfold Cell.render at h
  cases h1 : emit fuel s (Cmd.setAttr c.attr) with
  | error e1 => rw [h1, ex_bind_err] at h; cases h; exact emit_err h1
  | ok s1 =>
    rw [h1, ex_bind_ok] at h
    cases h2 : emit fuel s1 (Cmd.setFg c.fg) with
    | error e2 => rw [h2, ex_bind_err] at h; cases h; exact emit_err h2
    | ok s2 =>
      rw [h2, ex_bind_ok] at h
      cases h3 : emit fuel s2 (Cmd.setBg c.bg) with
      | error e3 => rw [h3, ex_bind_err] at h; cases h; exact emit_err h3
      | ok s3 =>
        rw [h3, ex_bind_ok] at h
        cases h4 : emit fuel s3 (Cmd.writeByte c.ch) with
        | error e4 => rw [h4, ex_bind_err] at h; cases h; exact emit_err h4
        | ok s4 => rw [h4, ex_bind_ok] at h; cases h

/-! ## Row-level characterization lemmas -/

theorem renderRowFull_ok {fuel : Nat} (row : List Cell) :
    ∀ (s s' : SinkState), renderRowFull fuel row s = .ok s' →
      s'.out = s.out ++ row.flatMap Cell.cmds := by
  induction row with
  | nil =>
    intro s s' h
    cases h
    simp
  | cons cell rest ih =>
    intro s s' h
    unfold renderRowFull at h
    cases h1 : Cell.render fuel cell s with
    | error e => rw [h1, ex_bind_err] at h; cases h
    | ok s1 =>
      rw [h1, ex_bind_ok] at h
      rw [ih s1 s' h, cellRender_ok h1]
      simp [List.append_assoc]

theorem renderRowFull_err {fuel : Nat} (row : List Cell) :
    ∀ (s : SinkState) (e : RErr), renderRowFull fuel row s = .error e →
      e = RErr.ioError := by
  induction row with
  | nil => intro s e h; cases h
  | cons cell rest ih =>
    intro s e h
    unfold renderRowFull at h
    cases h1 : Cell.render fuel cell s with
    | error e1 => rw [h1, ex_bind_err] at h; cases h; exact cellRender_err h1
    | ok s1 => rw [h1, ex_bind_ok] at h; exact ih s1 e h

theorem deltaRowCmds_nil (p : List Cell) (y x : Nat) :
    deltaRowCmds p [] y x = [] := by
  cases p <;> rfl

theorem deltaCmds_nil (p : List (List Cell)) (y : Nat) :
    deltaCmds p [] y = [] := by
  cases p <;> rfl

theorem renderRowDelta_ok {fuel : Nat} {prev : List (List Cell)} {y : Nat}
    (row : List Cell) :
    ∀ (x : Nat) (s s' : SinkState) (prow : List Cell),
      prev[y]? = some prow → x + row.length ≤ prow.length →
      renderRowDelta fuel prev y row x s = .ok s' →
      s'.out = s.out ++ deltaRowCmds (prow.drop x) row y x := by
  induction row with
  | nil =>
    intro x s s' prow _ _ h
    cases h
    simp [deltaRowCmds_nil]
  | cons cell rest ih =>
    intro x s s' prow hy hlen h
    have hx : x < prow.length := by
      simp only [List.length_cons] at hlen
      omega
    have hlen' : (x + 1) + rest.length ≤ prow.length := by
      simp only [List.length_cons] at hlen
      omega
    have hdrop : prow.drop x = prow[x] :: prow.drop (x + 1) :=
      List.drop_eq_getElem_cons hx
    unfold renderRowDelta at h
    rw [hy] at h
    simp only [Option.some_bind, List.getElem?_eq_getElem hx] at h
    rw [hdrop]
    by_cases hc : prow[x] = cell
    · simp only [hc, ne_eq, not_true_eq_false, if_false, ite_false] at h
      rw [ih (x + 1) s s' prow hy hlen' h]
      simp [deltaRowCmds, hc]
    · simp only [ne_eq, hc, not_false_eq_true, if_true, ite_true] at h
      cases h1 : emit fuel s (Cmd.moveTo (x % 65536) (y % 65536)) with
      | error e => rw [h1, ex_bind_err] at h; cases h
      | ok s1 =>
        rw [h1, ex_bind_ok] at h
        cases h2 : Cell.render fuel cell s1 with
        | error e => rw [h2, ex_bind_err] at h; cases h
        | ok s2 =>
          rw [h2, ex_bind_ok] at h
          rw [ih (x + 1) s2 s' prow hy hlen' h, cellRender_ok h2,
            congrArg SinkState.out (emit_ok h1)]
          simp [deltaRowCmds, hc, List.append_assoc]

theorem renderRowDelta_err {fuel : Nat} {prev : List (List Cell)} {y : Nat}
    (row : List Cell) :
    ∀ (x : Nat) (s : SinkState) (e : RErr) (prow : List Cell),
      prev[y]? = some prow → x + row.length ≤ prow.length →
      renderRowDelta fuel prev y row x s = .error e →
      e = RErr.ioError := by
  induction row with
  | nil => intro x s e prow _ _ h; cases h
  | cons cell rest ih =>
    intro x s e prow hy hlen h
    have hx : x < prow.length := by
      simp only [List.length_cons] at hlen
      omega
    have hlen' : (x + 1) + rest.length ≤ prow.length := by
      simp only [List.length_cons] at hlen
      omega
    unfold renderRowDelta at h
    rw [hy] at h
    simp only [Option.some_bind, List.getElem?_eq_getElem hx] at h
    by_cases hc : prow[x] = cell
    · simp only [hc, ne_eq, not_true_eq_false, if_false, ite_false] at h
      exact ih (x + 1) s e prow hy hlen' h
    · simp only [ne_eq, hc, not_false_eq_true, if_true, ite_true] at h
      cases h1 : emit fuel s (Cmd.moveTo (x % 65536) (y % 65536)) with
      | error e1 => rw [h1, ex_bind_err] at h; cases h; exact emit_err h1
      | ok s1 =>
        rw [h1, ex_bind_ok] at h
        cases h2 : Cell.render fuel cell s1 with
        | error e2 => rw [h2, ex_bind_err] at h; cases h; exact cellRender_err h2
        | ok s2 =>
          rw [h2, ex_bind_ok] at h
          exact ih (x + 1) s2 e prow hy hlen' h

/-! ## Outer-loop characterization lemmas -/

theorem renderRows_none_ok {fuel : Nat} (rows : List (List Cell)) :
    ∀ (y : Nat) (s s' : SinkState),
      renderRows fuel none rows y s = .ok s' →
      s'.out = s.out ++ fullCmds rows y := by
  induction rows with
  | nil => intro y s s' h; cases h; simp [fullCmds]
  | cons row rest ih =>
    intro y s s' h
    unfold renderRows at h
    cases h1 : emit fuel s (Cmd.moveTo 0 (y % 65536)) with
    | error e => rw [h1, ex_bind_err] at h; cases h
    | ok s1 =>
      rw [h1, ex_bind_ok] at h
      cases h2 : renderRowFull fuel row s1 with
      | error e => rw [h2, ex_bind_err] at h; cases h
      | ok s2 =>
        rw [h2, ex_bind_ok] at h
        rw [ih (y + 1) s2 s' h, renderRowFull_ok row s1 s2 h2,
          congrArg SinkState.out (emit_ok h1)]
        simp [fullCmds, List.append_assoc]

theorem renderRows_none_err {fuel : Nat} (rows : List (List Cell)) :
    ∀ (y : Nat) (s : SinkState) (e : RErr),
      renderRows fuel none rows y s = .error e → e = RErr.ioError := by
  induction rows with
  | nil => intro y s e h; cases h
  | cons row rest ih =>
    intro y s e h
    unfold renderRows at h
    cases h1 : emit fuel s (Cmd.moveTo 0 (y % 65536)) with
    | error e1 => rw [h1, ex_bind_err] at h; cases h; exact emit_err h1
    | ok s1 =>
      rw [h1, ex_bind_ok] at h
      cases h2 : renderRowFull fuel row s1 with
      | error e2 => rw [h2, ex_bind_err] at h; cases h; exact renderRowFull_err row s1 e h2
      | ok s2 => rw [h2, ex_bind_ok] at h; exact ih (y + 1) s2 e h

theorem renderRows_some_ok {fuel : Nat} {prev : List (List Cell)}
    (rows : List (List Cell)) :
    ∀ (y : Nat) (s s' : SinkState),
      List.Forall₂ (fun prow row => row.length ≤ prow.length) (prev.drop y) rows →
      renderRows fuel (some prev) rows y s = .ok s' →
      s'.out = s.out ++ deltaCmds (prev.drop y) rows y := by
  induction rows with
  | nil => intro y s s' _ h; cases h; simp [deltaCmds_nil]
  | cons row rest ih =>
    intro y s s' hf h
    obtain ⟨prow, ptl, hlen, hf', hdrop⟩ := List.forall₂_cons_right_iff.mp hf
    have hy : prev[y]? = some prow := by
      have := List.getElem?_drop prev y 0
      rw [hdrop] at this
      simpa using this.symm
    have hptl : prev.drop (y + 1) = ptl := by
      have := List.drop_drop 1 y prev
      rw [hdrop] at this
      simpa using this.symm
    unfold renderRows at h
    cases h1 : renderRowDelta fuel prev y row 0 s with
    | error e => rw [h1, ex_bind_err] at h; cases h
    | ok s1 =>
      rw [h1, ex_bind_ok] at h
      have hout1 : s1.out = s.out ++ deltaRowCmds prow row y 0 := by
        have := renderRowDelta_ok row 0 s s1 prow hy (by simpa using hlen) h1
        simpa using this
      rw [hdrop]
      show s'.out = s.out ++ deltaCmds (prow :: ptl) (row :: rest) y
      have hrec := ih (y + 1) s1 s' (by rw [hptl]; exact hf') h
      rw [hptl] at hrec
      rw [hrec, hout1]
      simp [deltaCmds, List.append_assoc]

theorem renderRows_some_err {fuel : Nat} {prev : List (List Cell)}
    (rows : List (List Cell)) :
    ∀ (y : Nat) (s : SinkState) (e : RErr),
      List.Forall₂ (fun prow row => row.length ≤ prow.length) (prev.drop y) rows →
      renderRows fuel (some prev) rows y s = .error e → e = RErr.ioError := by
  induction rows with
  | nil => intro y s e _ h; cases h
  | cons row rest ih =>
    intro y s e hf h
    obtain ⟨prow, ptl, hlen, hf', hdrop⟩ := List.forall₂_cons_right_iff.mp hf
    have hy : prev[y]? = some prow := by
      have := List.getElem?_drop prev y 0
      rw [hdrop] at this
      simpa using this.symm
    have hptl : prev.drop (y + 1) = ptl := by
      have := List.drop_drop 1 y prev
      rw [hdrop] at this
      simpa using this.symm
    unfold renderRows at h
    cases h1 : renderRowDelta fuel prev y row 0 s with
    | error e1 =>
      rw [h1, ex_bind_err] at h
      cases h
      exact renderRowDelta_err row 0 s e prow hy (by simpa using hlen) h1
    | ok s1 =>
      rw [h1, ex_bind_ok] at h
      exact ih (y + 1) s1 e (by rw [hptl]; exact hf') h

/-! ## Render-level lemmas -/

theorem buffOk_forall₂ {w h : Nat} {p rows : List (List Cell)}
    (hp : buffOk w h p) (hc : buffOk w h rows) :
    List.Forall₂ (fun prow row => row.length ≤ prow.length) p rows := by
  rw [List.forall₂_iff_get]
  refine ⟨by rw [hp.1, hc.1], fun i h₁ h₂ => ?_⟩
  rw [hp.2 _ (List.get_mem p _ _), hc.2 _ (List.get_mem rows _ _)]

theorem render_ok_state {d : TerminalDisplay} {fuel : Nat} {s : SinkState}
    (h : (d.render fuel).1 = .ok s) :
    (d.render fuel).2 =
      { prev_chars := some d.chars,
        chars := TerminalDisplay.init_chars d.w d.h, w := d.w, h := d.h } := by
  unfold TerminalDisplay.render at h ⊢
  cases hr : (do
      let s ← renderRows fuel d.prev_chars d.chars 0 { out := [], ops := 0 }
      emit fuel s Cmd.flush : Except RErr SinkState) with
  | error e => rw [hr] at h; simp at h
  | ok s0 => rfl

theorem render_err_state {d : TerminalDisplay} {fuel : Nat} {e : RErr}
    (h : (d.render fuel).1 = .error e) : (d.render fuel).2 = d := by
  unfold TerminalDisplay.render at h ⊢
  cases hr : (do
      let s ← renderRows fuel d.prev_chars d.chars 0 { out := [], ops := 0 }
      emit fuel s Cmd.flush : Except RErr SinkState) with
  | error e0 => rfl
  | ok s0 => rw [hr] at h; simp at h

theorem render_ok_body {d : TerminalDisplay} {fuel : Nat} {s : SinkState}
    (h : (d.render fuel).1 = .ok s) :
    ∃ s1, renderRows fuel d.prev_chars d.chars 0 { out := [], ops := 0 } = .ok s1 ∧
      s.out = s1.out ++ [Cmd.flush] := by
  unfold TerminalDisplay.render at h
  cases hr : (do
      let s ← renderRows fuel d.prev_chars d.chars 0 { out := [], ops := 0 }
      emit fuel s Cmd.flush : Except RErr SinkState) with
  | error e => rw [hr] at h; simp at h
  | ok s0 =>
    rw [hr] at h
    simp only [] at h
    have hs : s0 = s := by
      have : (Except.ok s0 : Except RErr SinkState) = Except.ok s := h
      cases this; rfl
    subst hs
    cases hb : renderRows fuel d.prev_chars d.chars 0 { out := [], ops := 0 } with
    | error e => rw [hb, ex_bind_err] at hr; cases hr
    | ok s1 =>
      rw [hb, ex_bind_ok] at hr
      exact ⟨s1, rfl, by rw [congrArg SinkState.out (emit_ok hr)]⟩

theorem render_none_out {d : TerminalDisplay} {fuel : Nat} {s : SinkState}
    (hp : d.prev_chars = none) (h : (d.render fuel).1 = .ok s) :
    s.out = fullCmds d.chars 0 ++ [Cmd.flush] := by
  obtain ⟨s1, hb, hout⟩ := render_ok_body h
  rw [hp] at hb
  rw [hout, renderRows_none_ok d.chars 0 _ s1 hb]
  simp

theorem render_some_out {d : TerminalDisplay} {fuel : Nat} {s : SinkState}
    {p : List (List Cell)} (hInv : d.Inv) (hp : d.prev_chars = some p)
    (h : (d.render fuel).1 = .ok s) :
    s.out = deltaCmds p d.chars 0 ++ [Cmd.flush] := by
  obtain ⟨s1, hb, hout⟩ := render_ok_body h
  rw [hp] at hb
  have hf : List.Forall₂ (fun prow row => row.length ≤ prow.length)
      (p.drop 0) d.chars := by
    rw [List.drop_zero]
    exact buffOk_forall₂ (hInv.2.1 p hp) hInv.1
  have hch := renderRows_some_ok d.chars 0 _ s1 hf hb
  rw [List.drop_zero] at hch
  rw [hout, hch]
  simp

theorem render_err_classify {d : TerminalDisplay} {fuel : Nat} {e : RErr}
    (hInv : d.Inv) (h : (d.render fuel).1 = .error e) : e = RErr.ioError := by
  unfold TerminalDisplay.render at h
  cases hr : (do
      let s ← renderRows fuel d.prev_chars d.chars 0 { out := [], ops := 0 }
      emit fuel s Cmd.flush : Except RErr SinkState) with
  | ok s0 => rw [hr] at h; simp at h
  | error e0 =>
    rw [hr] at h
    have he : e0 = e := by
      have : (Except.error e0 : Except RErr SinkState) = Except.error e := h
      cases this; rfl
    subst he
    cases hb : renderRows fuel d.prev_chars d.chars 0 { out := [], ops := 0 } with
    | error e1 =>
      rw [hb, ex_bind_err] at hr
      have he1 : e1 = e0 := by cases hr; rfl
      subst he1
      cases hpv : d.prev_chars with
      | none =>
        rw [hpv] at hb
        exact renderRows_none_err d.chars 0 _ _ hb
      | some p =>
        rw [hpv] at hb
        have hf : List.Forall₂ (fun prow row => row.length ≤ prow.length)
            (p.drop 0) d.chars := by
          rw [List.drop_zero]
          exact buffOk_forall₂ (hInv.2.1 p hpv) hInv.1
        exact renderRows_some_err d.chars 0 _ _ hf hb
    | ok s1 =>
      rw [hb, ex_bind_ok] at hr
      exact emit_err hr

/-! ## Counting lemmas -/

theorem cellCmds_count_flush (c : Cell) : (Cell.cmds c).countP Cmd.isFlush = 0 := rfl

theorem cellCmds_count_moveTo (c : Cell) : (Cell.cmds c).countP Cmd.isMoveTo = 0 := rfl

theorem cellCmds_count_writeByte (c : Cell) :
    (Cell.cmds c).countP Cmd.isWriteByte = 1 := rfl

theorem flatMap_count_flush (row : List Cell) :
    (row.flatMap Cell.cmds).countP Cmd.isFlush = 0 := by
  induction row with
  | nil => rfl
  | cons c rest ih => simp [List.flatMap_cons, List.countP_append, ih, cellCmds_count_flush]

theorem flatMap_count_moveTo (row : List Cell) :
    (row.flatMap Cell.cmds).countP Cmd.isMoveTo = 0 := by
  induction row with
  | nil => rfl
  | cons c rest ih => simp [List.flatMap_cons, List.countP_append, ih, cellCmds_count_moveTo]

theorem flatMap_count_writeByte (row : List Cell) :
    (row.flatMap Cell.cmds).countP Cmd.isWriteByte = row.length := by
  induction row with
  | nil => rfl
  | cons c rest ih =>
    simp [List.flatMap_cons, List.countP_append, ih, cellCmds_count_writeByte,
      Nat.add_comm]

theorem fullCmds_count_flush (rows : List (List Cell)) :
    ∀ y, (fullCmds rows y).countP Cmd.isFlush = 0 := by
  induction rows with
  | nil => intro y; rfl
  | cons row rest ih =>
    intro y
    simp [fullCmds, List.countP_append, List.countP_cons, ih,
      flatMap_count_flush, Cmd.isFlush]

theorem fullCmds_count_moveTo (rows : List (List Cell)) :
    ∀ y, (fullCmds rows y).countP Cmd.isMoveTo = rows.length := by
  induction rows with
  | nil => intro y; rfl
  | cons row rest ih =>
    intro y
    simp [fullCmds, List.countP_append, List.countP_cons, ih,
      flatMap_count_moveTo, Cmd.isMoveTo, Nat.add_comm]

theorem fullCmds_count_writeByte (rows : List (List Cell)) :
    ∀ y, (fullCmds rows y).countP Cmd.isWriteByte = (rows.map List.length).sum := by
  induction rows with
  | nil => intro y; rfl
  | cons row rest ih =>
    intro y
    simp [fullCmds, List.countP_append, List.countP_cons, ih,
      flatMap_count_writeByte, Cmd.isWriteByte, Nat.add_comm]

theorem deltaRowCmds_count_flush (prow : List Cell) :
    ∀ (row : List Cell) (y x : Nat),
      (deltaRowCmds prow row y x).countP Cmd.isFlush = 0 := by
  induction prow with
  | nil => intro row y x; rw [show deltaRowCmds [] row y x = [] by cases row <;> rfl]; rfl
  | cons pc prest ih =>
    intro row y x
    cases row with
    | nil => rfl
    | cons c rest =>
      by_cases hc : pc = c <;>
        simp [deltaRowCmds, hc, List.countP_append, List.countP_cons, ih,
          cellCmds_count_flush, Cmd.isFlush]

theorem deltaRowCmds_count_moveTo (prow : List Cell) :
    ∀ (row : List Cell) (y x : Nat),
      (deltaRowCmds prow row y x).countP Cmd.isMoveTo = diffRowCount prow row := by
  induction prow with
  | nil =>
    intro row y x
    rw [show deltaRowCmds [] row y x = [] by cases row <;> rfl,
      show diffRowCount [] row = 0 by cases row <;> rfl]
    rfl
  | cons pc prest ih =>
    intro row y x
    cases row with
    | nil => rfl
    | cons c rest =>
      by_cases hc : pc = c <;>
        simp [deltaRowCmds, diffRowCount, hc, List.countP_append, List.countP_cons,
          ih, cellCmds_count_moveTo, Cmd.isMoveTo, Nat.add_comm]

theorem deltaRowCmds_count_writeByte (prow : List Cell) :
    ∀ (row : List Cell) (y x : Nat),
      (deltaRowCmds prow row y x).countP Cmd.isWriteByte = diffRowCount prow row := by
  induction prow with
  | nil =>
    intro row y x
    rw [show deltaRowCmds [] row y x = [] by cases row <;> rfl,
      show diffRowCount [] row = 0 by cases row <;> rfl]
    rfl
  | cons pc prest ih =>
    intro row y x
    cases row with
    | nil => rfl
    | cons c rest =>
      by_cases hc : pc = c <;>
        simp [deltaRowCmds, diffRowCount, hc, List.countP_append, List.countP_cons,
          ih, cellCmds_count_writeByte, Cmd.isWriteByte, Nat.add_comm]

theorem deltaCmds_count_flush (p : List (List Cell)) :
    ∀ (rows : List (List Cell)) (y : Nat),
      (deltaCmds p rows y).countP Cmd.isFlush = 0 := by
  induction p with
  | nil => intro rows y; rw [show deltaCmds [] rows y = [] by cases rows <;> rfl]; rfl
  | cons prow prest ih =>
    intro rows y
    cases rows with
    | nil => rfl
    | cons row rest =>
      simp [deltaCmds, List.countP_append, ih, deltaRowCmds_count_flush]

theorem deltaCmds_count_moveTo (p : List (List Cell)) :
    ∀ (rows : List (List Cell)) (y : Nat),
      (deltaCmds p rows y).countP Cmd.isMoveTo = diffCount p rows := by
  induction p with
  | nil =>
    intro rows y
    rw [show deltaCmds [] rows y = [] by cases rows <;> rfl,
      show diffCount [] rows = 0 by cases rows <;> rfl]
    rfl
  | cons prow prest ih =>
    intro rows y
    cases rows with
    | nil => rfl
    | cons row rest =>
      simp [deltaCmds, diffCount, List.countP_append, ih, deltaRowCmds_count_moveTo]

theorem deltaCmds_count_writeByte (p : List (List Cell)) :
    ∀ (rows : List (List Cell)) (y : Nat),
      (deltaCmds p rows y).countP Cmd.isWriteByte = diffCount p rows := by
  induction p with
  | nil =>
    intro rows y
    rw [show deltaCmds [] rows y = [] by cases rows <;> rfl,
      show diffCount [] rows = 0 by cases rows <;> rfl]
    rfl
  | cons prow prest ih =>
    intro rows y
    cases rows with
    | nil => rfl
    | cons row rest =>
      simp [deltaCmds, diffCount, List.countP_append, ih, deltaRowCmds_count_writeByte]

theorem buffOk_sum_lengths {w : Nat} (rows : List (List Cell)) :
    ∀ h, buffOk w h rows → (rows.map List.length).sum = h * w := by
  induction rows with
  | nil =>
    intro h hb
    rw [← hb.1]
    simp
  | cons row rest ih =>
    intro h hb
    obtain ⟨hlen, hall⟩ := hb
    have hrow : row.length = w := hall row (by simp)
    have hrest : buffOk w rest.length rest :=
      ⟨rfl, fun r hr => hall r (by simp [hr])⟩
    rw [← hlen]
    simp only [List.map_cons, List.sum_cons, ih rest.length hrest, hrow,
      List.length_cons]
    ring

/-! ## Helper lemmas for clear and init_chars -/

theorem clear_clear (d : TerminalDisplay) : d.clear.clear = d.clear := by
  simp [TerminalDisplay.clear, List.map_map, Function.comp]

theorem clear_colored_idem (d : TerminalDisplay) (c : Color) :
    (d.clear_colored c).clear_colored c = d.clear_colored c := by
  simp [TerminalDisplay.clear_colored, List.map_map, Function.comp]

theorem init_chars_buffOk (w h : Nat) :
    buffOk w h (TerminalDisplay.init_chars w h) := by
  constructor
  · simp [TerminalDisplay.init_chars]
  · intro row hrow
    rw [TerminalDisplay.init_chars, List.mem_replicate] at hrow
    simp [hrow.2]

theorem init_chars_all_empty (w h : Nat) :
    ∀ row ∈ TerminalDisplay.init_chars w h, ∀ cell ∈ row, cell = Cell.empty := by
  intro row hrow cell hcell
  rw [TerminalDisplay.init_chars, List.mem_replicate] at hrow
  rw [hrow.2, List.mem_replicate] at hcell
  exact hcell.2

/-! ## The claims -/

/-- C1: for every well-formed display whose previous buffer is present,
a successful `render` emits exactly the delta-repaint command sequence
`deltaCmds`: at each coordinate `(x, y)`, one cursor move to `(x, y)`
followed by that one cell's four commands iff `current[y][x]` differs from
`previous[y][x]` by structural equality, and nothing iff they are equal;
the number of cursor moves and of cell emissions each equal the number of
differing coordinates (so one differing cell gives exactly one cursor move
and one cell emission, and no differing cell gives zero). -/
theorem c1_delta_repaint (d : TerminalDisplay) (fuel : Nat)
    (p : List (List Cell)) (s : SinkState)
    (hInv : d.Inv) (hp : d.prev_chars = some p)
    (h : (d.render fuel).1 = .ok s) :
    s.out = deltaCmds p d.chars 0 ++ [Cmd.flush] ∧
    s.out.countP Cmd.isMoveTo = diffCount p d.chars ∧
    s.out.countP Cmd.isWriteByte = diffCount p d.chars := by
  have hout := render_some_out hInv hp h
  refine ⟨hout, ?_, ?_⟩ <;>
    simp [hout, List.countP_append, deltaCmds_count_moveTo,
      deltaCmds_count_writeByte, List.countP_cons, Cmd.isMoveTo, Cmd.isWriteByte]

/-- C2: for every well-formed display whose previous buffer is absent, a
successful `render` emits exactly the full-repaint command sequence
`fullCmds`: per row one cursor move to the start of the row followed by
every cell of the row in column order with no further cursor moves inside
the row; all `w * h` cells are emitted and there is one cursor move per
row. -/
theorem c2_full_repaint (d : TerminalDisplay) (fuel : Nat) (s : SinkState)
    (hInv : d.Inv) (hp : d.prev_chars = none)
    (h : (d.render fuel).1 = .ok s) :
    s.out = fullCmds d.chars 0 ++ [Cmd.flush] ∧
    s.out.countP Cmd.isWriteByte = d.w * d.h ∧
    s.out.countP Cmd.isMoveTo = d.h := by
  have hout := render_none_out hp h
  refine ⟨hout, ?_, ?_⟩
  · rw [hout]
    simp [List.countP_append, fullCmds_count_writeByte, List.countP_cons,
      Cmd.isWriteByte]
    rw [buffOk_sum_lengths d.chars d.h hInv.1]
    exact Nat.mul_comm d.h d.w
  · rw [hout]
    simp [List.countP_append, fullCmds_count_moveTo, List.countP_cons,
      Cmd.isMoveTo]
    exact hInv.1.1

/-- C4: if any sink operation fails during `render`, the error is the
result surfaced to the caller and the buffers (`prev_chars`, `chars`, `w`,
`h`) are left exactly as they were before the call: no rotation occurs. -/
theorem c4_error_preserves_state (d : TerminalDisplay) (fuel : Nat) (e : RErr)
    (h : (d.render fuel).1 = .error e) : (d.render fuel).2 = d :=
  render_err_state h

/-- C9: `clear` is idempotent: any positive number of successive `clear`
calls (with no intervening render) leaves the current buffer identical to
a single `clear`, and likewise for `clear_colored` with a fixed color. -/
theorem c9_clear_idempotent (d : TerminalDisplay) (c : Color) (n : Nat) :
    TerminalDisplay.clear^[n + 1] d = d.clear ∧
    (fun dd => dd.clear_colored c)^[n + 1] d = d.clear_colored c := by
  constructor
  · induction n with
    | zero => rw [Function.iterate_one]
    | succ m ih => rw [Function.iterate_succ_apply', ih, clear_clear]
  · induction n with
    | zero => rw [Function.iterate_one]
    | succ m ih =>
      rw [Function.iterate_succ_apply', ih]
      exact clear_colored_idem d c

/-- C10: the default empty cell is fully determined: `Cell.empty` (and
`Cell.default`) is the space character (byte 32) with white foreground,
black background and reset attribute; `Cell.empty_colored c` is the same
cell with background `c`; `Cell.empty = Cell.empty_colored black`; and
`clear` produces the same buffer as `clear_colored black`. -/
theorem c10_empty_cell :
    Cell.empty =
      { ch := 32, fg := Color.white, bg := Color.black, attr := TextAttr.reset } ∧
    Cell.default = Cell.empty ∧
    (∀ c, Cell.empty_colored c =
      { ch := 32, fg := Color.white, bg := c, attr := TextAttr.reset }) ∧
    Cell.empty = Cell.empty_colored Color.black ∧
    (∀ d : TerminalDisplay, d.clear = d.clear_colored Color.black) :=
  ⟨rfl, rfl, fun _ => rfl, rfl, fun _ => rfl⟩

/-- C3: after every successful `render`, the buffers are rotated: the
previous buffer becomes present and equal to the current buffer as it
stood at the call (the frame just emitted), the current buffer becomes an
all-empty `w × h` buffer, `w` and `h` are unchanged, and the sink saw
exactly one flush, emitted after all other commands. -/
theorem c3_buffer_rotation (d : TerminalDisplay) (fuel : Nat) (s : SinkState)
    (hInv : d.Inv) (h : (d.render fuel).1 = .ok s) :
    (d.render fuel).2.prev_chars = some d.chars ∧
    (d.render fuel).2.chars = TerminalDisplay.init_chars d.w d.h ∧
    (d.render fuel).2.w = d.w ∧ (d.render fuel).2.h = d.h ∧
    (d.render fuel).2.chars.length = d.h ∧
    (∀ row ∈ (d.render fuel).2.chars, row.length = d.w ∧
      ∀ cell ∈ row, cell = Cell.empty) ∧
    s.out.countP Cmd.isFlush = 1 ∧
    s.out.getLast? = some Cmd.flush := by
  have hst := render_ok_state h
  rw [hst]
  refine ⟨rfl, rfl, rfl, rfl, (init_chars_buffOk d.w d.h).1, ?_, ?_, ?_⟩
  · intro row hrow
    exact ⟨(init_chars_buffOk d.w d.h).2 row hrow,
      init_chars_all_empty d.w d.h row hrow⟩
  · cases hpv : d.prev_chars with
    | none =>
      rw [render_none_out hpv h]
      simp [List.countP_append, fullCmds_count_flush, List.countP_cons, Cmd.isFlush]
    | some p =>
      rw [render_some_out hInv hpv h]
      simp [List.countP_append, deltaCmds_count_flush, List.countP_cons, Cmd.isFlush]
  · cases hpv : d.prev_chars with
    | none => rw [render_none_out hpv h]; exact List.getLast?_concat _
    | some p => rw [render_some_out hInv hpv h]; exact List.getLast?_concat _

/-- C5: `resize w' h'` sets the previous buffer to absent, reallocates the
current buffer as an all-empty `h'`-rows-of-`w'`-cells buffer and stores
the new dimensions, so the next successful `render` after any resize emits
the full-repaint command sequence, whatever the old state was. -/
theorem c5_resize_forces_full_repaint (d : TerminalDisplay) (w' h' : Nat) :
    (d.resize w' h').prev_chars = none ∧
    (d.resize w' h').chars = TerminalDisplay.init_chars w' h' ∧
    (d.resize w' h').chars.length = h' ∧
    (∀ row ∈ (d.resize w' h').chars, row.length = w' ∧
      ∀ cell ∈ row, cell = Cell.empty) ∧
    (d.resize w' h').w = w' ∧ (d.resize w' h').h = h' ∧
    (∀ fuel s, ((d.resize w' h').render fuel).1 = .ok s →
      s.out = fullCmds (TerminalDisplay.init_chars w' h') 0 ++ [Cmd.flush]) := by
  refine ⟨rfl, rfl, (init_chars_buffOk w' h').1, ?_, rfl, rfl, ?_⟩
  · intro row hrow
    exact ⟨(init_chars_buffOk w' h').2 row hrow,
      init_chars_all_empty w' h' row hrow⟩
  · intro fuel s hok
    exact render_none_out rfl hok

/-- C6: the buffer invariant is maintained by every operation: a fresh
display and a resized display satisfy it (for `u16` dimensions), and it is
preserved by a successful `write`, by `clear`, by `clear_colored` and by
`render` (successful or failed); consequently the delta repaint's indexing
of the previous buffer is always in bounds, so `render` can never fail
with the panic error. -/
theorem c6_invariant_preserved :
    (∀ w h, w < 65536 → h < 65536 → (TerminalDisplay.new w h).Inv) ∧
    (∀ (d : TerminalDisplay) w' h', w' < 65536 → h' < 65536 →
      (d.resize w' h').Inv) ∧
    (∀ (d : TerminalDisplay) x y c d', d.Inv → d.write x y c = .ok d' →
      d'.Inv) ∧
    (∀ d : TerminalDisplay, d.Inv → d.clear.Inv) ∧
    (∀ (d : TerminalDisplay) c, d.Inv → (d.clear_colored c).Inv) ∧
    (∀ (d : TerminalDisplay) fuel, d.Inv → ((d.render fuel).2).Inv) ∧
    (∀ (d : TerminalDisplay) fuel, d.Inv →
      (d.render fuel).1 ≠ .error RErr.panic) := by
  refine ⟨?_, ?_, ?_, ?_, ?_, ?_, ?_⟩
  · intro w h hw hh
    exact ⟨init_chars_buffOk w h, by rintro p ⟨⟩, hw, hh⟩
  · intro d w' h' hw hh
    exact ⟨init_chars_buffOk w' h', by rintro p ⟨⟩, hw, hh⟩
  · intro d x y c d' hInv hw
    unfold TerminalDisplay.write at hw
    cases hy : d.chars[y]? with
    | none => rw [hy] at hw; cases hw
    | some row =>
      rw [hy] at hw
      have hw2 : (if x < row.length then
          Except.ok { d with chars := d.chars.set y (row.set x c) } else
          (Except.error () : Except Unit TerminalDisplay)) = Except.ok d' := hw
      by_cases hx : x < row.length
      · rw [if_pos hx] at hw2
        cases hw2
        refine ⟨⟨?_, ?_⟩, hInv.2.1, hInv.2.2⟩
        · show (d.chars.set y (row.set x c)).length = d.h
          simp [hInv.1.1]
        · intro r hr
          show r.length = d.w
          rcases List.mem_or_eq_of_mem_set hr with hmem | hset
          · exact hInv.1.2 r hmem
          · rw [hset, List.length_set]
            exact hInv.1.2 row (List.getElem?_mem hy)
      · rw [if_neg hx] at hw2
        cases hw2
  · intro d hInv
    refine ⟨⟨?_, ?_⟩, hInv.2.1, hInv.2.2⟩
    · show (d.chars.map _).length = d.h
      simp [hInv.1.1]
    · intro r hr
      show r.length = d.w
      obtain ⟨r0, hr0, hmap⟩ := List.mem_map.mp hr
      rw [← hmap]
      simp [hInv.1.2 r0 hr0]
  · intro d c hInv
    refine ⟨⟨?_, ?_⟩, hInv.2.1, hInv.2.2⟩
    · show (d.chars.map _).length = d.h
      simp [hInv.1.1]
    · intro r hr
      show r.length = d.w
      obtain ⟨r0, hr0, hmap⟩ := List.mem_map.mp hr
      rw [← hmap]
      simp [hInv.1.2 r0 hr0]
  · intro d fuel hInv
    cases hres : (d.render fuel).1 with
    | error e =>
      rw [render_err_state hres]
      exact hInv
    | ok s =>
      rw [render_ok_state hres]
      refine ⟨init_chars_buffOk d.w d.h, ?_, hInv.2.2⟩
      rintro p ⟨⟩
      exact hInv.1
  · intro d fuel hInv hpanic
    have := render_err_classify hInv hpanic
    cases this

/-- C7: for a well-formed display, `write x y c` with `x < w` and `y < h`
replaces exactly the cell at row `y`, column `x` of the current buffer and
changes nothing else (previous buffer, dimensions and all other cells are
untouched); with out-of-bounds coordinates it fails with the out-of-bounds
error and no state is produced. -/
theorem c7_write_bounds (d : TerminalDisplay) (x y : Nat) (c : Cell)
    (hInv : d.Inv) :
    ((x < d.w ∧ y < d.h) →
      ∃ d', d.write x y c = .ok d' ∧
        d'.prev_chars = d.prev_chars ∧ d'.w = d.w ∧ d'.h = d.h ∧
        d'.cellAt x y = some c ∧
        (∀ x' y', ¬(x' = x ∧ y' = y) → d'.cellAt x' y' = d.cellAt x' y')) ∧
    (¬(x < d.w ∧ y < d.h) → d.write x y c = .error ()) := by
  constructor
  · rintro ⟨hx, hy⟩
    have hylen : y < d.chars.length := by rw [hInv.1.1]; exact hy
    have hyget : d.chars[y]? = some d.chars[y] := List.getElem?_eq_getElem hylen
    have hrowlen : d.chars[y].length = d.w :=
      hInv.1.2 _ (List.getElem_mem hylen)
    have hxlen : x < d.chars[y].length := by rw [hrowlen]; exact hx
    refine ⟨{ d with chars := d.chars.set y (d.chars[y].set x c) },
      ?_, rfl, rfl, rfl, ?_, ?_⟩
    · unfold TerminalDisplay.write
      rw [hyget]
      show (if x < d.chars[y].length then
          Except.ok { d with chars := d.chars.set y (d.chars[y].set x c) } else
          (Except.error () : Except Unit TerminalDisplay)) =
        Except.ok { d with chars := d.chars.set y (d.chars[y].set x c) }
      rw [if_pos hxlen]
    · show ((d.chars.set y (d.chars[y].set x c))[y]?.bind fun row => row[x]?) =
        some c
      rw [List.getElem?_set_self hylen]
      simp only [Option.some_bind]
      exact List.getElem?_set_self (by simpa using hxlen)
    · intro x' y' hne
      by_cases hyy : y' = y
      · subst hyy
        have hxx : x ≠ x' := fun hx' => hne ⟨hx'.symm, rfl⟩
        show ((d.chars.set y' (d.chars[y'].set x c))[y']?.bind fun row => row[x']?) =
          (d.chars[y']?.bind fun row => row[x']?)
        rw [List.getElem?_set_self hylen, hyget]
        simp only [Option.some_bind]
        exact List.getElem?_set_ne hxx
      · have hyne : y ≠ y' := fun hh => hyy hh.symm
        show ((d.chars.set y (d.chars[y].set x c))[y']?.bind fun row => row[x']?) =
          (d.chars[y']?.bind fun row => row[x']?)
        rw [List.getElem?_set_ne hyne]
  · intro hnot
    unfold TerminalDisplay.write
    by_cases hy : y < d.h
    · have hx : ¬ x < d.w := fun hxw => hnot ⟨hxw, hy⟩
      have hylen : y < d.chars.length := by rw [hInv.1.1]; exact hy
      rw [List.getElem?_eq_getElem hylen]
      have hxlen : ¬ x < d.chars[y].length := by
        rw [hInv.1.2 _ (List.getElem_mem hylen)]
        exact hx
      show (if x < d.chars[y].length then
          Except.ok { d with chars := d.chars.set y (d.chars[y].set x c) } else
          (Except.error () : Except Unit TerminalDisplay)) = Except.error ()
      rw [if_neg hxlen]
    · have hylen : ¬ y < d.chars.length := by rw [hInv.1.1]; exact hy
      rw [List.getElem?_eq_none (Nat.le_of_not_lt hylen)]

/-- C8: `clear` overwrites every cell of the current buffer with the empty
cell and `clear_colored c` with the empty cell of background `c`; neither
touches the previous buffer or the dimensions; and `clear_colored c`
followed by a successful `render` with no other writes makes the emitted
frame (the new previous buffer) consist entirely of empty cells with
background `c`. -/
theorem c8_clear_overwrites (d : TerminalDisplay) (c : Color) :
    (∀ row ∈ d.clear.chars, ∀ cell ∈ row, cell = Cell.empty) ∧
    d.clear.prev_chars = d.prev_chars ∧ d.clear.w = d.w ∧ d.clear.h = d.h ∧
    (∀ row ∈ (d.clear_colored c).chars, ∀ cell ∈ row,
      cell = Cell.empty_colored c) ∧
    (d.clear_colored c).prev_chars = d.prev_chars ∧
    (d.clear_colored c).w = d.w ∧ (d.clear_colored c).h = d.h ∧
    (∀ fuel s, (((d.clear_colored c).render fuel).1 = .ok s) →
      ∀ p, (((d.clear_colored c).render fuel).2).prev_chars = some p →
        ∀ row ∈ p, ∀ cell ∈ row, cell = Cell.empty_colored c) := by
  refine ⟨?_, rfl, rfl, rfl, ?_, rfl, rfl, rfl, ?_⟩
  · intro row hrow cell hcell
    obtain ⟨r0, _, hmap⟩ := List.mem_map.mp hrow
    rw [← hmap] at hcell
    obtain ⟨c0, _, hc⟩ := List.mem_map.mp hcell
    exact hc.symm
  · intro row hrow cell hcell
    obtain ⟨r0, _, hmap⟩ := List.mem_map.mp hrow
    rw [← hmap] at hcell
    obtain ⟨c0, _, hc⟩ := List.mem_map.mp hcell
    exact hc.symm
  · intro fuel s hok p hp row hrow cell hcell
    rw [render_ok_state hok] at hp
    have hpc : p = (d.clear_colored c).chars := by
      have : some ((d.clear_colored c).chars) = some p := hp
      cases this; rfl
    subst hpc
    obtain ⟨r0, _, hmap⟩ := List.mem_map.mp hrow
    rw [← hmap] at hcell
    obtain ⟨c0, _, hc⟩ := List.mem_map.mp hcell
    exact hc.symm

/-! ## Concrete instantiations of the claims -/

/-- Witness for C1 on `c1d`, whose buffers differ in exactly one cell. -/
theorem c1_delta_repaint_witness :
    c1d.Inv ∧ c1d.prev_chars = some [[Cell.empty, hashBold]] ∧
    (c1d.render 100).1 = .ok c1s ∧
    (c1s.out = deltaCmds [[Cell.empty, hashBold]] c1d.chars 0 ++ [Cmd.flush] ∧
      c1s.out.countP Cmd.isMoveTo = diffCount [[Cell.empty, hashBold]] c1d.chars ∧
      c1s.out.countP Cmd.isWriteByte =
        diffCount [[Cell.empty, hashBold]] c1d.chars) :=
  ⟨by decide, rfl, rfl,
    c1_delta_repaint c1d 100 [[Cell.empty, hashBold]] c1s (by decide) rfl rfl⟩

/-- Witness for C2 on the freshly constructed display `c2d`. -/
theorem c2_full_repaint_witness :
    c2d.Inv ∧ c2d.prev_chars = none ∧ (c2d.render 100).1 = .ok c2s ∧
    (c2s.out = fullCmds c2d.chars 0 ++ [Cmd.flush] ∧
      c2s.out.countP Cmd.isWriteByte = c2d.w * c2d.h ∧
      c2s.out.countP Cmd.isMoveTo = c2d.h) :=
  ⟨by decide, rfl, rfl, c2_full_repaint c2d 100 c2s (by decide) rfl rfl⟩

/-- Witness for C3 on `c3d`. -/
theorem c3_buffer_rotation_witness :
    c3d.Inv ∧ (c3d.render 100).1 = .ok c3s ∧
    ((c3d.render 100).2.prev_chars = some c3d.chars ∧
      (c3d.render 100).2.chars = TerminalDisplay.init_chars c3d.w c3d.h ∧
      (c3d.render 100).2.w = c3d.w ∧ (c3d.render 100).2.h = c3d.h ∧
      (c3d.render 100).2.chars.length = c3d.h ∧
      (∀ row ∈ (c3d.render 100).2.chars, row.length = c3d.w ∧
        ∀ cell ∈ row, cell = Cell.empty) ∧
      c3s.out.countP Cmd.isFlush = 1 ∧
      c3s.out.getLast? = some Cmd.flush) :=
  ⟨by decide, rfl, c3_buffer_rotation c3d 100 c3s (by decide) rfl⟩

/-- Witness for C4: with fuel 0 the very first sink operation fails and
the buffers survive untouched. -/
theorem c4_error_preserves_state_witness :
    (c4d.render 0).1 = .error RErr.ioError ∧ (c4d.render 0).2 = c4d :=
  ⟨rfl, c4_error_preserves_state c4d 0 RErr.ioError rfl⟩

/-- Witness for C5: resizing `c5d` (which has a previous frame) to 3×2 and
rendering gives the full repaint of the 3×2 empty buffer. -/
theorem c5_resize_witness :
    (c5d.resize 3 2).prev_chars = none ∧
    ((c5d.resize 3 2).render 100).1 = .ok c5s ∧
    c5s.out = fullCmds (TerminalDisplay.init_chars 3 2) 0 ++ [Cmd.flush] :=
  ⟨(c5_resize_forces_full_repaint c5d 3 2).1, rfl,
    (c5_resize_forces_full_repaint c5d 3 2).2.2.2.2.2.2 100 c5s rfl⟩

/-- Witness for C6: each conjunct of the invariant theorem exercised on a
concrete 2×2 display. -/
theorem c6_invariant_witness :
    (TerminalDisplay.new 2 2).Inv ∧
    ((TerminalDisplay.new 2 2).resize 3 3).Inv ∧
    (TerminalDisplay.new 2 2).write 1 1 hashBold = .ok c6wd ∧ c6wd.Inv ∧
    (TerminalDisplay.new 2 2).clear.Inv ∧
    ((TerminalDisplay.new 2 2).clear_colored Color.red).Inv ∧
    (((TerminalDisplay.new 2 2).render 100).2).Inv ∧
    ((TerminalDisplay.new 2 2).render 100).1 ≠ .error RErr.panic :=
  ⟨c6_invariant_preserved.1 2 2 (by decide) (by decide),
    c6_invariant_preserved.2.1 (TerminalDisplay.new 2 2) 3 3 (by decide) (by decide),
    rfl,
    c6_invariant_preserved.2.2.1 (TerminalDisplay.new 2 2) 1 1 hashBold c6wd
      (by decide) rfl,
    c6_invariant_preserved.2.2.2.1 (TerminalDisplay.new 2 2) (by decide),
    c6_invariant_preserved.2.2.2.2.1 (TerminalDisplay.new 2 2) Color.red (by decide),
    c6_invariant_preserved.2.2.2.2.2.1 (TerminalDisplay.new 2 2) 100 (by decide),
    c6_invariant_preserved.2.2.2.2.2.2 (TerminalDisplay.new 2 2) 100 (by decide)⟩

/-- Witness for C7: an in-bounds write at (1, 0) and an out-of-bounds
write at (5, 7) on a fresh 2×2 display. -/
theorem c7_write_bounds_witness :
    (∃ d', (TerminalDisplay.new 2 2).write 1 0 hashBold = .ok d' ∧
      d'.prev_chars = (TerminalDisplay.new 2 2).prev_chars ∧
      d'.w = (TerminalDisplay.new 2 2).w ∧ d'.h = (TerminalDisplay.new 2 2).h ∧
      d'.cellAt 1 0 = some hashBold ∧
      (∀ x' y', ¬(x' = 1 ∧ y' = 0) →
        d'.cellAt x' y' = (TerminalDisplay.new 2 2).cellAt x' y')) ∧
    (TerminalDisplay.new 2 2).write 5 7 Cell.empty = .error () :=
  ⟨(c7_write_bounds (TerminalDisplay.new 2 2) 1 0 hashBold (by decide)).1
      (by decide),
    (c7_write_bounds (TerminalDisplay.new 2 2) 5 7 Cell.empty (by decide)).2
      (by decide)⟩

/-- Witness for C8: clearing a fresh 2×1 display red and rendering leaves
a baseline made entirely of red empty cells. -/
theorem c8_clear_overwrites_witness :
    ((c8d.clear_colored Color.red).render 100).1 = .ok c8s ∧
    (((c8d.clear_colored Color.red).render 100).2).prev_chars =
      some (c8d.clear_colored Color.red).chars ∧
    (∀ row ∈ (c8d.clear_colored Color.red).chars, ∀ cell ∈ row,
      cell = Cell.empty_colored Color.red) :=
  ⟨rfl, rfl,
    (c8_clear_overwrites c8d Color.red).2.2.2.2.2.2.2.2 100 c8s rfl
      (c8d.clear_colored Color.red).chars rfl⟩
